import Mathlib

set_option autoImplicit false
set_option maxRecDepth 8000

/-!
Verification of the `doco` document converter (`document_converter.py`).

The development shallowly embeds the converter's Markdown normalization
passes, the HTML-table transcoder, the docx styling engine
(`_apply_styling`), and the conversion control flow, and proves the frozen
claims about them.  Strings are modelled as `List Char` (with `String`
wrappers at the interfaces); Python's `str.strip` / regexes are embedded
over the ASCII whitespace and digit classes the converter's inputs use.
-/

namespace Doco

/-! ### Python-style string primitives -/

/-- ASCII whitespace, as recognized by Python's `str.strip()` and the
regex class `\s` on the converter's inputs. -/
def isPySpace (c : Char) : Bool :=
  c = ' ' || c = '\t' || c = '\n' || c = '\r' || c = '\x0b' || c = '\x0c'

/-- `str.strip()`: drop leading and trailing whitespace. -/
def pyStrip (l : List Char) : List Char :=
  ((l.dropWhile isPySpace).reverse.dropWhile isPySpace).reverse

/-- `str.split('\n')`. -/
def splitLines : List Char → List (List Char)
  | [] => [[]]
  | c :: r =>
    if c = '\n' then [] :: splitLines r
    else
      match splitLines r with
      | [] => [[c]]
      | l :: ls => (c :: l) :: ls

/-- `'\n'.join(...)`. -/
def joinLines : List (List Char) → List Char
  | [] => []
  | [l] => l
  | l :: ls => l ++ '\n' :: joinLines ls

/-- `needle` is an initial segment of the second argument
(Python `str.startswith`). -/
def startsWithL : List Char → List Char → Bool
  | [], _ => true
  | _ :: _, [] => false
  | p :: ps, c :: cs => p == c && startsWithL ps cs

/-- Python's `needle in hay` substring test. -/
def containsSub (needle : List Char) : List Char → Bool
  | [] => needle.isEmpty
  | c :: r => startsWithL needle (c :: r) || containsSub needle r

/-- Consume `pat` (already lower-case) case-insensitively from the front of
the text; return the remainder on success. -/
def dropCI : List Char → List Char → Option (List Char)
  | [], cs => some cs
  | _ :: _, [] => none
  | p :: ps, c :: cs => if c.toLower = p then dropCI ps cs else none

/-- `re.match(r'^Figure\s+\d+', t, re.IGNORECASE)` is not `None`:
`Figure` case-insensitively, then at least one whitespace, then a digit. -/
def figMatch (t : List Char) : Bool :=
  match dropCI "figure".data t with
  | none => false
  | some rest =>
    match rest with
    | [] => false
    | c :: r =>
      isPySpace c &&
        (match r.dropWhile isPySpace with
         | [] => false
         | d :: _ => d.isDigit)

/-! ### `_strip_hrs_after_headers`: decorative-rule removal in Markdown -/

/-- `is_hr` from `_strip_hrs_after_headers`: the stripped text is `---`,
`***` or `___`, or longer than 5 characters and all `_`, all `-` or
all `*`. -/
def is_hr (line : List Char) : Bool :=
  let t := pyStrip line
  t == "---".data || t == "***".data || t == "___".data ||
    (decide (5 < t.length) &&
      (t.all (fun c => c = '_') || t.all (fun c => c = '-') || t.all (fun c => c = '*')))

/-- Count of leading `#` characters. -/
def leadingHashes : List Char → Nat
  | '#' :: r => leadingHashes r + 1
  | _ => 0

/-- `is_header_1` from `_strip_hrs_after_headers`: the stripped text starts
with `#`, has exactly one leading `#`, and its second character is a
space. -/
def is_header_1 (line : List Char) : Bool :=
  let t := pyStrip line
  (t.take 1 == ['#']) && leadingHashes t == 1 && decide (1 < t.length) && t[1]? == some ' '

/-- The backward scan of `_strip_hrs_after_headers`: nearest line strictly
before index `i` whose stripped text is non-empty, read from the original
line list. -/
def prevNonBlankLine (ls : List (List Char)) : Nat → Option (List Char)
  | 0 => none
  | i + 1 =>
    match ls[i]? with
    | none => none
    | some l => if pyStrip l == [] then prevNonBlankLine ls i else some l

/-- The `is_after_h1` test of the loop body: the nearest non-blank line
above index `i` of the original list is a level-1 heading. -/
def isAfterH1 (ls : List (List Char)) (i : Nat) : Bool :=
  match prevNonBlankLine ls i with
  | some prev => is_header_1 prev
  | none => false

/-- Whether the line at index `i` survives the pass: it is dropped exactly
when it is a rule and the nearest non-blank line above it (in the original
input) is a level-1 heading. -/
def keptLine (ls : List (List Char)) (i : Nat) : Bool :=
  match ls[i]? with
  | none => true
  | some line => !(is_hr line && isAfterH1 ls i)

/-- The main loop of `_strip_hrs_after_headers`: walk the lines with their
index; the backward lookup always reads the original list `orig`. -/
def stripHrsGo (orig : List (List Char)) : Nat → List (List Char) → List (List Char)
  | _, [] => []
  | i, line :: rest =>
    if is_hr line && isAfterH1 orig i then
      stripHrsGo orig (i + 1) rest
    else
      line :: stripHrsGo orig (i + 1) rest

/-- `_strip_hrs_after_headers` on a line list. -/
def stripHrsLines (ls : List (List Char)) : List (List Char) :=
  stripHrsGo ls 0 ls

/-- `_strip_hrs_after_headers`. -/
def strip_hrs_after_headers (s : String) : String :=
  ⟨joinLines (stripHrsLines (splitLines s.data))⟩

/-! ### `_strip_captions`: `re.sub(r'!\[.*?\]\((.*?)\)', r'![](\1)', md)`

The pattern's `.` does not cross newlines; `.*?` is non-greedy with
backtracking.  `findBeta` finds the shortest group `(.*?)` closed by `)`;
`findMatch` scans for a `](` whose group search succeeds, extending the
first `.*?` past failing candidates exactly as the backtracking engine
does; `stripCapsFuel` performs the left-to-right scan of `re.sub`,
emitting the replacement `![](group)` at each leftmost match. -/

/-- Shortest prefix (without newline) closed by `)`: the group `(.*?)\)`. -/
def findBeta : List Char → Option (List Char × List Char)
  | [] => none
  | c :: r =>
    if c = ')' then some ([], r)
    else if c = '\n' then none
    else
      match findBeta r with
      | some (b, rest) => some (c :: b, rest)
      | none => none

/-- After `![`, search for the first `](` with a completing group; on a
failing candidate the leading `.*?` extends past it (backtracking). -/
def findMatch : List Char → Option (List Char × List Char)
  | [] => none
  | c :: r =>
    if c = '\n' then none
    else if c = ']' ∧ r.head? = some '(' then
      match findBeta r.tail with
      | some (b, rest) => some (b, rest)
      | none => findMatch r
    else findMatch r

/-- The left-to-right scan of `re.sub`: at each position try to match
`!\[.*?\]\((.*?)\)`; on a match emit `![](group)` and continue after it,
otherwise copy one character.  `fuel` dominates the list length at every
call, so it never runs out. -/
def stripCapsFuel : Nat → List Char → List Char
  | 0, _ => []
  | _, [] => []
  | fuel + 1, c :: r =>
    if c = '!' ∧ r.head? = some '[' then
      match findMatch r.tail with
      | some (b, rest) => '!' :: '[' :: ']' :: '(' :: (b ++ ')' :: stripCapsFuel fuel rest)
      | none => c :: stripCapsFuel fuel r
    else c :: stripCapsFuel fuel r

/-- One application of the caption-stripping substitution to a character
list. -/
def stripCapsAux (l : List Char) : List Char := stripCapsFuel l.length l

/-- `_strip_captions`. -/
def strip_captions (s : String) : String := ⟨stripCapsAux s.data⟩

/-! ### `_style_captions_in_markdown`: wrap figure-caption lines -/

/-- One line of `_style_captions_in_markdown`: if the stripped line matches
the figure pattern, wrap the original line in the 10pt span. -/
def lineFigWrap (line : List Char) : List Char :=
  if figMatch (pyStrip line) then
    "<span style=\"font-size:10pt\">".data ++ line ++ "</span>".data
  else line

/-- `_style_captions_in_markdown`. -/
def style_captions_in_markdown (s : String) : String :=
  ⟨joinLines ((splitLines s.data).map lineFigWrap)⟩

/-! ### `_html_table_to_markdown`: HTML table → pipe table

The HTML fragment is abstracted at the parser boundary: `none` when no
`<table>` element is found, otherwise the list of the table's `tr`
elements, each a list of child elements with their tag and text content
(what `lxml` hands back to the function's own logic). -/

/-- A child element of a `tr`, as seen by the transcoder. -/
structure HtmlEl where
  tag : String
  textContent : String
deriving DecidableEq

/-- `[c.text_content().strip() for c in tr if c.tag in ('td', 'th')]`. -/
def rowCells (tr : List HtmlEl) : List String :=
  tr.filterMap (fun c =>
    if c.tag = "td" ∨ c.tag = "th" then some ⟨pyStrip c.textContent.data⟩ else none)

/-- Collect the nonempty cell rows (`if cells: rows.append(cells)`). -/
def collectRows (trs : List (List HtmlEl)) : List (List String) :=
  (trs.map rowCells).filter (fun r => !r.isEmpty)

/-- `num_cols = max(len(r) for r in rows)`. -/
def maxColumns (rows : List (List String)) : Nat :=
  rows.foldl (fun m r => Nat.max m r.length) 0

/-- Right-pad a row with empty cells up to `n` columns. -/
def padRow (n : Nat) (r : List String) : List String :=
  r ++ List.replicate (n - r.length) ""

/-- `'| ' + ' | '.join(row) + ' |'`. -/
def renderRow (r : List String) : String :=
  "| " ++ String.intercalate " | " r ++ " |"

/-- `_html_table_to_markdown` (after the `lxml` parse). -/
def html_table_to_markdown (table : Option (List (List HtmlEl))) : String :=
  match table with
  | none => ""
  | some trs =>
    let rows := collectRows trs
    if rows.isEmpty then ""
    else
      let num_cols := maxColumns rows
      let padded := rows.map (padRow num_cols)
      let lines := renderRow (padded.headD []) ::
        renderRow (List.replicate num_cols "---") :: (padded.drop 1).map renderRow
      String.intercalate "\n" lines

/-- A small ragged two-row table used as a concrete witness input. -/
def exTrsC7 : List (List HtmlEl) :=
  [[{ tag := "td", textContent := " a " }, { tag := "th", textContent := "b" }],
   [{ tag := "td", textContent := "c" }]]

/-! ### Docx data model

The python-docx objects touched by `_apply_styling`, restricted to the
attributes that pass reads or writes.  Font sizes are whole points (`Pt`),
colors are RGB triples, and the raw-XML attributes written through
`OxmlElement`/`set` are kept as the strings the code writes. -/

/-- A `line_spacing_rule`/`line_spacing` pair as the pass leaves it:
`EXACTLY` with a point height, `SINGLE`, or `MULTIPLE` with factor 1.16. -/
inductive LineSpacingVal
  | exactlyPt (n : Nat)
  | single
  | multiple116
deriving DecidableEq

/-- `WD_PARAGRAPH_ALIGNMENT` values the pass assigns. -/
inductive ParaAlign
  | left
  | center
  | justify
deriving DecidableEq

/-- A run: a text span with font attributes. -/
structure Run where
  text : String := ""
  fontName : Option String := none
  fontSizePt : Option Nat := none
  bold : Option Bool := none
  colorRGB : Option (Nat × Nat × Nat) := none
deriving DecidableEq

/-- A paragraph: style reference, runs, structural markers
(`w:drawing`/`w:pict`, `oMath`, `w:pBdr`, `w:numPr`) and the formatting
attributes the pass writes. -/
structure Paragraph where
  styleName : String := ""
  runs : List Run := []
  hasImage : Bool := false
  hasMath : Bool := false
  hasBorder : Bool := false
  hasNumPr : Bool := false
  spaceBeforePt : Option Nat := none
  spaceAfterPt : Option Nat := none
  lineSpacing : Option LineSpacingVal := none
  pageBreakBefore : Bool := false
  alignment : Option ParaAlign := none
  shading : Option String := none
  indentLR : Option (Nat × Nat) := none
  tabStops : Bool := false
deriving DecidableEq

/-- `paragraph.text`: concatenation of the run texts. -/
def paraText (p : Paragraph) : List Char :=
  (p.runs.map (fun r => r.text.data)).flatten

/-- The converter options `_apply_styling` reads. -/
structure Config where
  include_toc : Bool := false
  text_align : String := "justify"
  font_family : String := "Aptos"
  font_size_body : Nat := 12
  font_size_table : Nat := 11
  font_size_code : Nat := 10
deriving DecidableEq

/-- `RGBColor(0x4F, 0x81, 0xBD)`. -/
def accent_blue : Nat × Nat × Nat := (0x4F, 0x81, 0xBD)

/-- A run inside a structured-content (`w:sdt`) block: the `w:sz` and
`w:color` values of its `w:rPr`. -/
structure TocRun where
  szHalfPts : Option String := none
  colorVal : Option String := none
deriving DecidableEq

/-- A paragraph inside a structured-content block: its `w:pStyle` value,
`w:spacing w:after` value and runs. -/
structure TocPara where
  pStyleVal : Option String := none
  spacingAfter : Option String := none
  runs : List TocRun := []
deriving DecidableEq

/-- The TOC-heading styling of one sdt paragraph: for a `TOCHeading`
style reference, set spacing-after 120 twips (6pt), size 36 half-points
(18pt) and the accent color on every run. -/
def tocStylePara (p : TocPara) : TocPara :=
  if p.pStyleVal = some "TOCHeading" then
    { p with
      spacingAfter := some "120",
      runs := p.runs.map (fun r =>
        { r with szHalfPts := some "36", colorVal := some "4F81BD" }) }
  else p

/-- One sweep of the sdt blocks (the body of the `for sdt in ...` loop,
which the code runs once per paragraph of the main loop). -/
def tocStyleBlocks (blocks : List (List TocPara)) : List (List TocPara) :=
  blocks.map (fun b => b.map tocStylePara)

/-- The `w:tblLook` attributes. -/
structure TblLook where
  val : String
  firstRow : String
  lastRow : String
  firstColumn : String
  lastColumn : String
  noHBand : String
  noVBand : String
deriving DecidableEq

/-- One side of `w:tblBorders`. -/
structure BorderEl where
  side : String
  val : String
  sz : String
  space : String
  color : String
deriving DecidableEq

/-- A table cell: vertical alignment, shading and contained paragraphs. -/
structure TableCell where
  vAlign : Option String := none
  shd : Option String := none
  paragraphs : List Paragraph := []
deriving DecidableEq

/-- A table with the properties the pass writes. -/
structure DocxTable where
  styleName : Option String := none
  tblBorders : Option (List BorderEl) := none
  tblCellMar : Option (List (String × String)) := none
  tblLook : Option TblLook := none
  jc : Option String := none
  rows : List (List TableCell) := []
deriving DecidableEq

/-- The reasserted table borders: thin single accent-colored lines. -/
def tableBorderSet : List BorderEl :=
  ["top", "left", "bottom", "right", "insideH", "insideV"].map
    (fun s => { side := s, val := "single", sz := "4", space := "0", color := "4F81BD" })

/-- The reasserted default cell margins. -/
def tableCellMarSet : List (String × String) :=
  [("top", "58"), ("bottom", "58"), ("left", "115"), ("right", "115")]

/-- The `w:tblLook` the pass writes: `val=04A0, firstRow=1, lastRow=0,
firstColumn=1, lastColumn=0, noHBand=0, noVBand=1`. -/
def stdTblLook : TblLook :=
  { val := "04A0", firstRow := "1", lastRow := "0", firstColumn := "1",
    lastColumn := "0", noHBand := "0", noVBand := "1" }

/-- Per-cell formatting of the table step (row index 0 is the header). -/
def formatCell (cfg : Config) (rowIdx : Nat) (cell : TableCell) : TableCell :=
  { cell with
    vAlign := some "center",
    shd := if rowIdx = 0 then some "4F81BD" else none,
    paragraphs := cell.paragraphs.map (fun p =>
      { p with
        spaceBeforePt := some 0, spaceAfterPt := some 0, shading := none,
        runs := p.runs.map (fun r =>
          let r1 := { r with fontSizePt := some cfg.font_size_table,
                             fontName := some cfg.font_family }
          if rowIdx = 0 then
            { r1 with bold := some true, colorRGB := some (0xFF, 0xFF, 0xFF) }
          else
            { r1 with colorRGB := some (0, 0, 0) }) }) }

/-- The per-table body of step 6 of `_apply_styling`. -/
def formatTable (cfg : Config) (hasTableGrid : Bool) (t : DocxTable) : DocxTable :=
  { t with
    styleName := if hasTableGrid then some "Table Grid" else t.styleName,
    tblBorders := some tableBorderSet,
    tblCellMar := some tableCellMarSet,
    tblLook := some stdTblLook,
    jc := some "center",
    rows := t.rows.enum.map (fun x => x.2.map (formatCell cfg x.1)) }

/-- The document: body paragraphs, structured-content blocks, tables. -/
structure DocxDocument where
  paragraphs : List Paragraph := []
  tocBlocks : List (List TocPara) := []
  tables : List DocxTable := []
  hasTableGridStyle : Bool := true
  normalFontName : Option String := none
  normalFontSizePt : Option Nat := none
deriving DecidableEq

/-! ### Pass 1 — cleanup -/

/-- The `is_hr` test of Pass 1: a border property, or stripped text
`---`/`***`/`___`, or more than 5 characters all underscores. -/
def isHrPara (p : Paragraph) : Bool :=
  p.hasBorder ||
    (let text := pyStrip (paraText p)
     text == "---".data || text == "***".data || text == "___".data ||
       (decide (5 < text.length) && text.all (fun c => c = '_')))

/-- Backward scan of Pass 1: nearest paragraph strictly before index `i`
with non-blank text, read from the snapshot list. -/
def prevNonBlankPara (ps : List Paragraph) : Nat → Option Paragraph
  | 0 => none
  | i + 1 =>
    match ps[i]? with
    | none => none
    | some q => if pyStrip (paraText q) == [] then prevNonBlankPara ps i else some q

/-- Deletion condition of Pass 1 at index `i` of the snapshot. -/
def delCond (ps : List Paragraph) (i : Nat) : Bool :=
  match ps[i]? with
  | none => false
  | some p =>
    isHrPara p &&
      (match prevNonBlankPara ps i with
       | some q => q.styleName == "Heading 1"
       | none => false)

/-- Pass 1: iterate the snapshot backwards, removing (by identity) each
paragraph satisfying the deletion condition from the live document. -/
def cleanupPass (ps : List Paragraph) : List Paragraph :=
  (((List.range ps.length).reverse).foldl
      (fun cur i => if delCond ps i then cur.filter (fun x => x.1 != i) else cur)
      ps.enum).map Prod.snd

/-! ### Pass 2 — styling -/

/-- `'Source Code' in style_name`. -/
def isCodeStyle (name : String) : Bool := containsSub "Source Code".data name.data

/-- `style_name.startswith('Heading')`. -/
def isHeadingStyle (name : String) : Bool := startsWithL "Heading".data name.data

/-- `'List' in style_name or 'Compact' in style_name or has_numPr`. -/
def isListStyled (p : Paragraph) : Bool :=
  containsSub "List".data p.styleName.data ||
    containsSub "Compact".data p.styleName.data || p.hasNumPr

/-- The caption gate's neighbor check: `i > 0` and the previous paragraph
of the pass-2 list contains an image. -/
def prevHasImage (ps : List Paragraph) (i : Nat) : Bool :=
  decide (0 < i) &&
    (match ps[i - 1]? with
     | some q => q.hasImage
     | none => false)

/-- `_adj_is_code`: the paragraph at index `j` is code-styled. -/
def adjIsCode (ps : List Paragraph) (j : Nat) : Bool :=
  match ps[j]? with
  | some q => isCodeStyle q.styleName
  | none => false

/-- The pass-2 loop body for the paragraph at index `i`, in source order:
base spacing, caption styling, heading spacing, code-block decoration,
list spacing, alignment, then the run-font loop. -/
def stylePara (cfg : Config) (ps : List Paragraph) (i : Nat) (p0 : Paragraph) : Paragraph :=
  let style_name := p0.styleName
  let text := pyStrip (paraText p0)
  let is_code := isCodeStyle style_name
  let is_heading := isHeadingStyle style_name
  let is_list := isListStyled p0
  let has_image := p0.hasImage
  let has_math := p0.hasMath
  let p1 := { p0 with spaceBeforePt := some 9, spaceAfterPt := some 9 }
  let p1 := if !has_image && !has_math then
      { p1 with lineSpacing := some (LineSpacingVal.exactlyPt 16) } else p1
  let is_caption := figMatch text && prevHasImage ps i
  let p2 := if is_caption then
      { p1 with
        runs := p1.runs.map (fun r =>
          { r with fontSizePt := some 10, fontName := some cfg.font_family }),
        spaceBeforePt := some 9, spaceAfterPt := some 9,
        lineSpacing := some LineSpacingVal.single }
    else p1
  let p3 := if is_heading then
      { p2 with spaceBeforePt := some 12, spaceAfterPt := some 6,
                pageBreakBefore := style_name = "Heading 1" }
    else p2
  let is_first_code := !(decide (0 < i) && adjIsCode ps (i - 1))
  let is_last_code := !(adjIsCode ps (i + 1))
  let p4 := if is_code then
      { p3 with
        spaceBeforePt := some (if is_first_code then 12 else 0),
        spaceAfterPt := some (if is_last_code then 9 else 0),
        shading := some "F2F2F2",
        hasBorder := true,
        indentLR := some (180, 180) }
    else p3
  let p5 := if is_list then
      { p4 with spaceBeforePt := some 0, spaceAfterPt := some 6,
                lineSpacing := some LineSpacingVal.multiple116,
                indentLR := none, tabStops := false }
    else p4
  let p6 := { p5 with alignment := some (
      if is_code then ParaAlign.left
      else if has_image then ParaAlign.center
      else if cfg.text_align = "justify" then ParaAlign.justify
      else ParaAlign.left) }
  { p6 with runs := p6.runs.map (fun r =>
      let r1 := if !is_code then { r with fontName := some cfg.font_family } else r
      let r2 :=
        if is_code then { r1 with fontSizePt := some cfg.font_size_code }
        else if is_heading then
          (if style_name = "Heading 1" then { r1 with fontSizePt := some 18 } else r1)
        else if !is_caption then { r1 with fontSizePt := some cfg.font_size_body }
        else r1
      if is_heading then { r2 with colorRGB := some accent_blue } else r2) }

/-- Pass 2 over the refreshed paragraph list. -/
def pass2 (cfg : Config) (ps : List Paragraph) : List Paragraph :=
  ps.enum.map (fun x => stylePara cfg ps x.1 x.2)

/-- The synthetic cover paragraph inserted at the front when a table of
contents is requested. -/
def coverPara : Paragraph :=
  { styleName := "Normal",
    runs := [{ text := "INSERT YOUR COVER PAGE HERE" }, { text := "" }] }

/-- `_apply_styling` on the document model: base style, optional cover
insertion, Pass 1, Pass 2 (whose body also reruns the TOC-heading styling
of the sdt blocks once per paragraph), and table formatting. -/
def apply_styling (cfg : Config) (doc : DocxDocument) : DocxDocument :=
  let ps0 := if cfg.include_toc && !doc.paragraphs.isEmpty then
      coverPara :: doc.paragraphs else doc.paragraphs
  let ps1 := cleanupPass ps0
  { doc with
    normalFontName := some cfg.font_family,
    normalFontSizePt := some cfg.font_size_body,
    paragraphs := pass2 cfg ps1,
    tocBlocks := tocStyleBlocks^[ps1.length] doc.tocBlocks,
    tables := doc.tables.map (formatTable cfg doc.hasTableGridStyle) }

/-- The defaults of the converter's configuration. -/
def defaultConfig : Config := {}

/-! ### Concrete documents for counterexamples and witnesses -/

/-- An image-bearing paragraph. -/
def imgParaEx : Paragraph := { hasImage := true }

/-- A `Heading 1`-styled paragraph whose text matches the caption
pattern. -/
def capHeadParaEx : Paragraph :=
  { styleName := "Heading 1", runs := [{ text := "Figure 1" }] }

/-- A body paragraph whose text matches the caption pattern. -/
def capBodyParaEx : Paragraph := { runs := [{ text := "Figure 1: overview" }] }

/-- A `Heading 1` paragraph. -/
def h1ParaEx : Paragraph := { styleName := "Heading 1", runs := [{ text := "Title" }] }

/-- A textual decorative-rule paragraph. -/
def hrParaEx : Paragraph := { runs := [{ text := "---" }] }

/-- A document with no body paragraphs but one unstyled TOC-heading block. -/
def exDocC3 : DocxDocument :=
  { paragraphs := [],
    tocBlocks := [[{ pStyleVal := some "TOCHeading", runs := [{}] }]] }

/-- A document with one body paragraph and one unstyled TOC-heading block. -/
def exDocC3w : DocxDocument :=
  { paragraphs := [capBodyParaEx],
    tocBlocks := [[{ pStyleVal := some "TOCHeading", runs := [{}] }]] }

/-- A two-row, one-column table with one run per cell. -/
def exTableC4 : DocxTable :=
  { rows := [[{ paragraphs := [{ runs := [{}] }] }],
             [{ paragraphs := [{ runs := [{}] }] }]] }

/-- The look-flag reading asserted by the claim under test: first row and
first column marked as distinct bands and horizontal banding suppressed
(`noHBand = "1"`). -/
def claimLookFlagsC4 (l : TblLook) : Prop :=
  l.firstRow = "1" ∧ l.firstColumn = "1" ∧ l.noHBand = "1"

/-- The raw cell used in the C4 witness. -/
def exBaseCellC4 : TableCell := { paragraphs := [{ runs := [{}] }] }

/-- A one-row table holding the witness cell. -/
def exTable1C4 : DocxTable := { rows := [[exBaseCellC4]] }

/-- The witness cell after header-row formatting. -/
def exFmtCellC4 : TableCell := formatCell defaultConfig 0 exBaseCellC4

/-- Its (single) paragraph. -/
def exFmtParaC4 : Paragraph := exFmtCellC4.paragraphs.headD {}

/-- Its (single) run. -/
def exFmtRun0C4 : Run := exFmtParaC4.runs.headD {}

/-! ### Conversion control flow

`convert` → `_process_markdown` / `_process_notebook` → `_markdown_to_docx`,
modelled over an environment recording the filesystem/PATH state and the
outcome of each external-compiler invocation (numbered in call order).
The notebook exporter is an external collaborator and is modelled as
succeeding; filesystem reads/writes are pure. -/

/-- The Markdown normalization applied by both pipelines before the final
compilation: strip captions, strip rules after headings, wrap figure
lines. -/
def normalizeMd (s : String) : String :=
  style_captions_in_markdown (strip_hrs_after_headers (strip_captions s))

/-- The `ConversionError` kinds. -/
inductive CErr
  | inputNotFound
  | unsupportedType (suffix : String)
  | nbMissing
  | pandocMissing
  | pandocFailed (code : Int) (stderr : String)
deriving DecidableEq

/-- Trace of a conversion: the contents handed to the external compiler in
call order, the content whose compiled output currently sits at the docx
output path, and the count of warnings printed for swallowed cosmetic
failures. -/
structure ConvTrace where
  compiled : List String := []
  docx : Option String := none
  warnings : Nat := 0
deriving DecidableEq

/-- The environment a conversion runs against. -/
structure ExecEnv where
  inputExists : Bool
  suffix : String
  pandocOnPath : Bool
  nbAvailable : Bool
  rawMarkdown : String
  nbExportMarkdown : String
  pandocRc : Nat → Int
  pandocStderr : Nat → String
  headerFooterOk : Nat → Bool
  stylingOk : Nat → Bool

/-- `_markdown_to_docx`: require pandoc on PATH, run it, raise with the
exit code and stderr on non-zero exit, then run the header/footer and
styling steps, swallowing (and logging) their failures. -/
def mdToDocx (env : ExecEnv) (content : String) (tr : ConvTrace) :
    ConvTrace × Option CErr :=
  if ¬ env.pandocOnPath then (tr, some CErr.pandocMissing)
  else
    let k := tr.compiled.length
    let tr1 := { tr with compiled := tr.compiled ++ [content] }
    if env.pandocRc k ≠ 0 then
      (tr1, some (CErr.pandocFailed (env.pandocRc k) (env.pandocStderr k)))
    else
      ({ tr1 with
         docx := some content,
         warnings := tr1.warnings
           + (if env.headerFooterOk k then 0 else 1)
           + (if env.stylingOk k then 0 else 1) }, none)

/-- `convert`: input validation, then the markdown pipeline (compile the
raw file, then normalize and compile again to the same output path) or the
notebook pipeline (export, normalize, compile once). -/
def convertModel (env : ExecEnv) : ConvTrace × Option CErr :=
  if ¬ env.inputExists then ({}, some CErr.inputNotFound)
  else if env.suffix ∉ [".ipynb", ".md"] then
    ({}, some (CErr.unsupportedType env.suffix))
  else if env.suffix = ".ipynb" then
    if ¬ env.nbAvailable then ({}, some CErr.nbMissing)
    else mdToDocx env (normalizeMd env.nbExportMarkdown) {}
  else
    match mdToDocx env env.rawMarkdown {} with
    | (tr, some e) => (tr, some e)
    | (tr, none) => mdToDocx env (normalizeMd env.rawMarkdown) tr

/-- A concrete healthy markdown environment (with a failing styling step,
to exercise the cosmetic-failure path). -/
def exEnvMd : ExecEnv :=
  { inputExists := true, suffix := ".md", pandocOnPath := true, nbAvailable := true,
    rawMarkdown := "# T\n---\nsee ![c](i.png)", nbExportMarkdown := "",
    pandocRc := fun _ => 0, pandocStderr := fun _ => "",
    headerFooterOk := fun _ => true, stylingOk := fun _ => false }

/-- The same environment with the compiler missing from the PATH. -/
def exEnvNoPandoc : ExecEnv := { exEnvMd with pandocOnPath := false }

/-- The same environment with the compiler failing on the first (raw)
compilation but succeeding on the second. -/
def exEnvFail0 : ExecEnv :=
  { exEnvMd with pandocRc := fun k => if k = 0 then 2 else 0,
                 pandocStderr := fun _ => "boom" }

/-! ### Helper lemmas: caption stripping -/

theorem findBeta_some_parts (x : List Char) :
    ∀ b rest, findBeta x = some (b, rest) → x = b ++ ')' :: rest ∧ ')' ∉ b ∧ '\n' ∉ b := by
  induction x with
  | nil => intro b rest h; simp [findBeta] at h
  | cons c r ih =>
    intro b rest h
    simp only [findBeta] at h
    by_cases hc : c = ')'
    · rw [if_pos hc] at h
      simp only [Option.some.injEq, Prod.mk.injEq] at h
      obtain ⟨hb, hrest⟩ := h
      subst hb; subst hrest; subst hc
      simp
    · rw [if_neg hc] at h
      by_cases hn : c = '\n'
      · rw [if_pos hn] at h; simp at h
      · rw [if_neg hn] at h
        cases hfb : findBeta r with
        | none => rw [hfb] at h; simp at h
        | some p =>
          obtain ⟨b0, rest0⟩ := p
          rw [hfb] at h
          simp only [Option.some.injEq, Prod.mk.injEq] at h
          obtain ⟨hb, hrest⟩ := h
          subst hb; subst hrest
          obtain ⟨heq, hnp, hnn⟩ := ih b0 rest0 hfb
          refine ⟨by rw [heq]; simp, ?_, ?_⟩
          · simp only [List.mem_cons, not_or]
            exact ⟨fun he => hc he.symm, hnp⟩
          · simp only [List.mem_cons, not_or]
            exact ⟨fun he => hn he.symm, hnn⟩

theorem findBeta_pad (b : List Char) (t : List Char)
    (hp : ')' ∉ b) (hn : '\n' ∉ b) : findBeta (b ++ ')' :: t) = some (b, t) := by
  induction b with
  | nil => simp [findBeta]
  | cons c b ih =>
    simp only [List.mem_cons, not_or] at hp hn
    have ih' := ih hp.2 hn.2
    simp only [List.cons_append, findBeta]
    rw [if_neg (fun he => hp.1 he.symm), if_neg (fun he => hn.1 he.symm)]
    simp only [List.append_eq]
    rw [ih']

theorem findBeta_cons_none_iff (c : Char) (t : List Char)
    (hc : c ≠ ')') (hn : c ≠ '\n') : findBeta (c :: t) = none ↔ findBeta t = none := by
  simp only [findBeta, if_neg hc, if_neg hn]
  cases hfb : findBeta t with
  | none => simp
  | some p => obtain ⟨b, rest⟩ := p; simp

theorem findMatch_some_parts (x : List Char) :
    ∀ b rest, findMatch x = some (b, rest) →
      ∃ a, x = a ++ ']' :: '(' :: (b ++ ')' :: rest) ∧ ')' ∉ b ∧ '\n' ∉ b := by
  induction x with
  | nil => intro b rest h; simp [findMatch] at h
  | cons c r ih =>
    intro b rest h
    simp only [findMatch] at h
    by_cases hn : c = '\n'
    · rw [if_pos hn] at h; simp at h
    · rw [if_neg hn] at h
      by_cases hc : c = ']' ∧ r.head? = some '('
      · rw [if_pos hc] at h
        obtain ⟨hc1, hc2⟩ := hc
        subst hc1
        cases r with
        | nil => simp at hc2
        | cons d t =>
          have hd : d = '(' := by simpa using hc2
          subst hd
          simp only [List.tail_cons] at h
          cases hfb : findBeta t with
          | some p =>
            obtain ⟨b0, rest0⟩ := p
            rw [hfb] at h
            simp only [Option.some.injEq, Prod.mk.injEq] at h
            obtain ⟨hb, hrest⟩ := h
            subst hb; subst hrest
            obtain ⟨heq, hnp, hnn⟩ := findBeta_some_parts t _ _ hfb
            exact ⟨[], by rw [heq]; simp, hnp, hnn⟩
          | none =>
            rw [hfb] at h
            obtain ⟨a, ha, hb1, hb2⟩ := ih b rest h
            exact ⟨']' :: a, by rw [List.cons_append, ← ha], hb1, hb2⟩
      · rw [if_neg hc] at h
        obtain ⟨a, ha, hb1, hb2⟩ := ih b rest h
        exact ⟨c :: a, by rw [List.cons_append, ← ha], hb1, hb2⟩

theorem findMatch_some_bound (x b rest : List Char) (h : findMatch x = some (b, rest)) :
    b.length + rest.length + 3 ≤ x.length := by
  obtain ⟨a, ha, -, -⟩ := findMatch_some_parts x b rest h
  have := congrArg List.length ha
  simp [List.length_append] at this
  omega

theorem findMatch_cons_none (c : Char) (w : List Char)
    (h : findMatch (c :: w) = none) (hn : c ≠ '\n') : findMatch w = none := by
  simp only [findMatch, if_neg hn] at h
  by_cases hc : c = ']' ∧ w.head? = some '('
  · rw [if_pos hc] at h
    cases hfb : findBeta w.tail with
    | some p => obtain ⟨b, rest⟩ := p; rw [hfb] at h; simp at h
    | none => rw [hfb] at h; exact h
  · rw [if_neg hc] at h; exact h

theorem findBeta_none_findMatch (x : List Char) (h : findBeta x = none) :
    findMatch x = none := by
  induction x with
  | nil => simp [findMatch]
  | cons c r ih =>
    by_cases hn : c = '\n'
    · simp [findMatch, hn]
    · by_cases hp : c = ')'
      · subst hp; simp [findBeta] at h
      · have hr : findBeta r = none := (findBeta_cons_none_iff c r hp hn).mp h
        simp only [findMatch, if_neg hn]
        by_cases hc : c = ']' ∧ r.head? = some '('
        · rw [if_pos hc]
          obtain ⟨hc1, hc2⟩ := hc
          cases r with
          | nil => simp at hc2
          | cons d t =>
            have hd : d = '(' := by simpa using hc2
            subst hd
            have ht : findBeta t = none :=
              (findBeta_cons_none_iff '(' t (by decide) (by decide)).mp hr
            simp only [List.tail_cons, ht]
            exact ih hr
        · rw [if_neg hc]; exact ih hr

theorem stripCapsFuel_head (n : Nat) (l : List Char) (hl : l.length ≤ n) :
    (stripCapsFuel n l).head? = l.head? := by
  cases n with
  | zero =>
    cases l with
    | nil => simp [stripCapsFuel]
    | cons c r => simp at hl
  | succ n =>
    cases l with
    | nil => simp [stripCapsFuel]
    | cons c r =>
      simp only [stripCapsFuel]
      by_cases hc : c = '!' ∧ r.head? = some '['
      · rw [if_pos hc]
        cases hfm : findMatch r.tail with
        | some p => obtain ⟨b, rest⟩ := p; simp [hc.1]
        | none => simp
      · rw [if_neg hc]; simp

theorem stripCapsFuel_congr : ∀ (n : Nat) (l : List Char) (m : Nat),
    l.length ≤ n → l.length ≤ m → stripCapsFuel n l = stripCapsFuel m l := by
  intro n
  induction n with
  | zero =>
    intro l m h1 h2
    cases l with
    | nil => cases m <;> simp [stripCapsFuel]
    | cons c r => simp at h1
  | succ n ih =>
    intro l m h1 h2
    cases l with
    | nil => cases m <;> simp [stripCapsFuel]
    | cons c r =>
      cases m with
      | zero => simp at h2
      | succ m =>
        simp only [List.length_cons] at h1 h2
        have htail : r.tail.length ≤ r.length := by
          cases r <;> simp
        simp only [stripCapsFuel]
        by_cases hc : c = '!' ∧ r.head? = some '['
        · rw [if_pos hc, if_pos hc]
          cases hfm : findMatch r.tail with
          | some p =>
            obtain ⟨b, rest⟩ := p
            have hb := findMatch_some_bound r.tail b rest hfm
            dsimp only
            rw [ih rest m (by omega) (by omega)]
          | none =>
            dsimp only
            rw [ih r m (by omega) (by omega)]
        · rw [if_neg hc, if_neg hc]
          rw [ih r m (by omega) (by omega)]

theorem stripCapsFuel_length_le : ∀ (n : Nat) (l : List Char), l.length ≤ n →
    (stripCapsFuel n l).length ≤ l.length := by
  intro n
  induction n with
  | zero =>
    intro l h1
    cases l with
    | nil => simp [stripCapsFuel]
    | cons c r => simp at h1
  | succ n ih =>
    intro l h1
    cases l with
    | nil => simp [stripCapsFuel]
    | cons c r =>
      simp only [List.length_cons] at h1
      simp only [stripCapsFuel]
      by_cases hc : c = '!' ∧ r.head? = some '['
      · rw [if_pos hc]
        cases hfm : findMatch r.tail with
        | some p =>
          obtain ⟨b, rest⟩ := p
          have hb := findMatch_some_bound r.tail b rest hfm
          have hrt : r.tail.length + 1 = r.length := by
            cases r with
            | nil => simp at hc
            | cons d t => simp
          have hrec := ih rest (by omega)
          dsimp only
          simp only [List.length_cons, List.length_append]
          omega
        | none =>
          have hrec := ih r (by omega)
          dsimp only
          simp only [List.length_cons]
          omega
      · rw [if_neg hc]
        have hrec := ih r (by omega)
        simp only [List.length_cons]
        omega

theorem findBeta_none_strip : ∀ (n : Nat) (x : List Char), x.length ≤ n →
    findBeta x = none → findBeta (stripCapsFuel n x) = none := by
  intro n
  induction n with
  | zero =>
    intro x h1 h2
    cases x with
    | nil => simpa [stripCapsFuel]
    | cons c r => simp at h1
  | succ n ih =>
    intro x h1 hfb
    cases x with
    | nil => simpa [stripCapsFuel]
    | cons c r =>
      simp only [List.length_cons] at h1
      have hcp : c ≠ ')' := by
        intro he; subst he; simp [findBeta] at hfb
      by_cases hn : c = '\n'
      · subst hn
        simp only [stripCapsFuel]
        rw [if_neg (fun h => absurd h.1 (by decide))]
        simp [findBeta]
      · have hr : findBeta r = none := (findBeta_cons_none_iff c r hcp hn).mp hfb
        simp only [stripCapsFuel]
        by_cases hc : c = '!' ∧ r.head? = some '['
        · rw [if_pos hc]
          obtain ⟨hc1, hc2⟩ := hc
          cases r with
          | nil => simp at hc2
          | cons d t =>
            have hd : d = '[' := by simpa using hc2
            subst hd
            have ht : findBeta t = none :=
              (findBeta_cons_none_iff '[' t (by decide) (by decide)).mp hr
            simp only [List.tail_cons, findBeta_none_findMatch t ht]
            exact (findBeta_cons_none_iff c _ hcp hn).mpr
              (ih ('[' :: t) (by simpa using h1) hr)
        · rw [if_neg hc]
          exact (findBeta_cons_none_iff c _ hcp hn).mpr (ih r (by omega) hr)

theorem findMatch_none_strip : ∀ (n : Nat) (x : List Char), x.length ≤ n →
    findMatch x = none → findMatch (stripCapsFuel n x) = none := by
  intro n
  induction n with
  | zero =>
    intro x h1 h2
    cases x with
    | nil => simpa [stripCapsFuel]
    | cons c r => simp at h1
  | succ n ih =>
    intro x h1 hfm
    cases x with
    | nil => simpa [stripCapsFuel]
    | cons c r =>
      simp only [List.length_cons] at h1
      by_cases hn : c = '\n'
      · subst hn
        simp only [stripCapsFuel]
        rw [if_neg (fun h => absurd h.1 (by decide))]
        simp [findMatch]
      · have hr : findMatch r = none := findMatch_cons_none c r hfm hn
        simp only [stripCapsFuel]
        by_cases hc : c = '!' ∧ r.head? = some '['
        · rw [if_pos hc]
          obtain ⟨hc1, hc2⟩ := hc
          subst hc1
          cases r with
          | nil => simp at hc2
          | cons d t =>
            have hd : d = '[' := by simpa using hc2
            subst hd
            have ht : findMatch t = none := findMatch_cons_none '[' t hr (by decide)
            simp only [List.tail_cons, ht]
            simp only [findMatch]
            rw [if_neg (by decide : ¬('!' : Char) = '\n'),
                if_neg (fun h => absurd h.1 (by decide))]
            exact ih ('[' :: t) (by simpa using h1) hr
        · rw [if_neg hc]
          have hhead : (stripCapsFuel n r).head? = r.head? :=
            stripCapsFuel_head n r (by omega)
          simp only [findMatch, if_neg hn]
          by_cases hcc : c = ']' ∧ r.head? = some '('
          · rw [if_pos (by rw [hhead]; exact hcc)]
            obtain ⟨hc1, hc2⟩ := hcc
            subst hc1
            cases r with
            | nil => simp at hc2
            | cons d t =>
              have hd : d = '(' := by simpa using hc2
              subst hd
              have htb : findBeta t = none := by
                cases hfb2 : findBeta t with
                | none => rfl
                | some p =>
                  obtain ⟨b, rest⟩ := p
                  exfalso
                  have hsome : findMatch (']' :: '(' :: t) = some (b, rest) := by
                    simp [findMatch, hfb2]
                  rw [hfm] at hsome
                  simp at hsome
              cases n with
              | zero => simp at h1
              | succ n0 =>
                have hstrip : stripCapsFuel (n0 + 1) ('(' :: t) =
                    '(' :: stripCapsFuel n0 t := by
                  simp only [stripCapsFuel]
                  rw [if_neg (fun h => absurd h.1 (by decide))]
                rw [hstrip]
                simp only [List.tail_cons]
                rw [findBeta_none_strip n0 t (by simpa using h1) htb]
                rw [← hstrip]
                exact ih ('(' :: t) (by simpa using h1) hr
          · rw [if_neg (by rw [hhead]; exact hcc)]
            exact ih r (by omega) hr

theorem stripCapsFuel_nil (n : Nat) : stripCapsFuel n [] = [] := by
  cases n <;> simp [stripCapsFuel]

theorem stripCapsFuel_idem : ∀ (n : Nat) (l : List Char) (m : Nat),
    l.length ≤ n → (stripCapsFuel n l).length ≤ m →
    stripCapsFuel m (stripCapsFuel n l) = stripCapsFuel n l := by
  intro n
  induction n with
  | zero =>
    intro l m h1 h2
    cases l with
    | nil => rw [stripCapsFuel_nil, stripCapsFuel_nil]
    | cons c r => simp at h1
  | succ n ih =>
    intro l m h1 h2
    cases l with
    | nil => rw [stripCapsFuel_nil, stripCapsFuel_nil]
    | cons c r =>
      simp only [List.length_cons] at h1
      by_cases hc : c = '!' ∧ r.head? = some '['
      · obtain ⟨hc1, hc2⟩ := hc
        subst hc1
        cases r with
        | nil => simp at hc2
        | cons d t =>
          have hd : d = '[' := by simpa using hc2
          subst hd
          simp only [List.length_cons] at h1
          cases hfm : findMatch t with
          | some p =>
            obtain ⟨b, rest⟩ := p
            obtain ⟨-, -, hbp, hbn⟩ := findMatch_some_parts t b rest hfm
            have hbound := findMatch_some_bound t b rest hfm
            have hinner : stripCapsFuel (n + 1) ('!' :: '[' :: t) =
                '!' :: '[' :: ']' :: '(' :: (b ++ ')' :: stripCapsFuel n rest) := by
              simp [stripCapsFuel, hfm]
            rw [hinner] at h2 ⊢
            simp only [List.length_cons, List.length_append] at h2
            cases m with
            | zero => omega
            | succ m0 =>
              have houter : stripCapsFuel (m0 + 1)
                  ('!' :: '[' :: ']' :: '(' :: (b ++ ')' :: stripCapsFuel n rest)) =
                  '!' :: '[' :: ']' :: '(' ::
                    (b ++ ')' :: stripCapsFuel m0 (stripCapsFuel n rest)) := by
                simp [stripCapsFuel, findMatch,
                  findBeta_pad b (stripCapsFuel n rest) hbp hbn]
              rw [houter, ih rest m0 (by omega) (by omega)]
          | none =>
            have hn1 : 1 ≤ n := by omega
            obtain ⟨n0, rfl⟩ : ∃ n0, n = n0 + 1 := ⟨n - 1, by omega⟩
            have hinner : stripCapsFuel (n0 + 1 + 1) ('!' :: '[' :: t) =
                '!' :: '[' :: stripCapsFuel n0 t := by
              simp [stripCapsFuel, hfm]
            rw [hinner] at h2 ⊢
            simp only [List.length_cons] at h2
            cases m with
            | zero => omega
            | succ m0 =>
              cases m0 with
              | zero => omega
              | succ m1 =>
                have hfm2 : findMatch (stripCapsFuel n0 t) = none :=
                  findMatch_none_strip n0 t (by omega) hfm
                have houter : stripCapsFuel (m1 + 1 + 1)
                    ('!' :: '[' :: stripCapsFuel n0 t) =
                    '!' :: '[' :: stripCapsFuel m1 (stripCapsFuel n0 t) := by
                  simp [stripCapsFuel, hfm2]
                rw [houter]
                have hcongr : stripCapsFuel n0 t = stripCapsFuel (n0 + 1) t :=
                  stripCapsFuel_congr n0 t (n0 + 1) (by omega) (by omega)
                rw [hcongr, ih t m1 (by omega) (by rw [← hcongr]; omega)]
      · have hinner : stripCapsFuel (n + 1) (c :: r) = c :: stripCapsFuel n r := by
          simp [stripCapsFuel, hc]
        rw [hinner] at h2 ⊢
        simp only [List.length_cons] at h2
        cases m with
        | zero => omega
        | succ m0 =>
          have hhead : (stripCapsFuel n r).head? = r.head? :=
            stripCapsFuel_head n r (by omega)
          have hcond : ¬(c = '!' ∧ (stripCapsFuel n r).head? = some '[') :=
            fun h => hc ⟨h.1, by rw [← hhead]; exact h.2⟩
          have houter : stripCapsFuel (m0 + 1) (c :: stripCapsFuel n r) =
              c :: stripCapsFuel m0 (stripCapsFuel n r) := by
            simp [stripCapsFuel, hcond]
          rw [houter, ih r m0 (by omega) (by omega)]

theorem stripCapsAux_idem (l : List Char) :
    stripCapsAux (stripCapsAux l) = stripCapsAux l :=
  stripCapsFuel_idem l.length l (stripCapsFuel l.length l).length le_rfl le_rfl

theorem findMatch_image (cap path : List Char)
    (hcap : ∀ c ∈ cap, c ≠ ']' ∧ c ≠ '\n')
    (hpath : ∀ c ∈ path, c ≠ ')' ∧ c ≠ '\n') :
    findMatch (cap ++ ']' :: '(' :: (path ++ [')'])) = some (path, []) := by
  induction cap with
  | nil =>
    have hpad :=
      findBeta_pad path [] (fun hm => (hpath _ hm).1 rfl) (fun hm => (hpath _ hm).2 rfl)
    simp [findMatch, hpad]
  | cons c cap ih =>
    have hc := hcap c (List.mem_cons_self c cap)
    simp only [List.cons_append, findMatch]
    rw [if_neg hc.2, if_neg (fun h => hc.1 h.1)]
    exact ih (fun x hx => hcap x (List.mem_cons_of_mem c hx))

theorem stripCapsAux_image (cap path : List Char)
    (hcap : ∀ c ∈ cap, c ≠ ']' ∧ c ≠ '\n')
    (hpath : ∀ c ∈ path, c ≠ ')' ∧ c ≠ '\n') :
    stripCapsAux ('!' :: '[' :: (cap ++ ']' :: '(' :: (path ++ [')'])))
      = '!' :: '[' :: ']' :: '(' :: (path ++ [')']) := by
  unfold stripCapsAux
  simp only [List.length_cons]
  simp [stripCapsFuel, findMatch_image cap path hcap hpath, stripCapsFuel_nil]

/-! ### Helper lemmas: HTML-table transcoding -/

theorem foldl_max_init (l : List (List String)) :
    ∀ b : Nat, b ≤ l.foldl (fun m r => Nat.max m r.length) b := by
  induction l with
  | nil => intro b; simp
  | cons x t ih => intro b; exact le_trans (Nat.le_max_left b x.length) (ih _)

theorem length_le_foldl_max (l : List (List String)) :
    ∀ (a : Nat) (r : List String), r ∈ l →
      r.length ≤ l.foldl (fun m r => Nat.max m r.length) a := by
  induction l with
  | nil => intro a r hr; simp at hr
  | cons x t ih =>
    intro a r hr
    rcases List.mem_cons.mp hr with h | h
    · subst h; exact le_trans (Nat.le_max_right a r.length) (foldl_max_init t _)
    · exact ih _ r h

/-! ### Helper lemmas: cleanup pass and TOC styling -/

theorem foldl_del_eq_filter (ps : List Paragraph) (L : List Nat) :
    ∀ xs : List (Nat × Paragraph),
      L.foldl (fun cur i => if delCond ps i then cur.filter (fun x => x.1 != i) else cur) xs
        = xs.filter (fun x => !(L.contains x.1 && delCond ps x.1)) := by
  induction L with
  | nil => intro xs; simp
  | cons i L ih =>
    intro xs
    simp only [List.foldl_cons]
    rw [ih]
    by_cases hd : delCond ps i = true
    · rw [if_pos hd, List.filter_filter]
      apply List.filter_congr
      intro x _
      by_cases hx : x.1 = i
      · simp [hx, hd, List.contains_cons]
      · simp [hx, List.contains_cons]
    · rw [if_neg hd]
      apply List.filter_congr
      intro x _
      simp only [Bool.not_eq_true] at hd
      by_cases hx : x.1 = i
      · simp [hx, hd, List.contains_cons]
      · simp [hx, List.contains_cons]

theorem cleanupPass_eq_filter (ps : List Paragraph) :
    cleanupPass ps = (ps.enum.filter (fun x => !delCond ps x.1)).map Prod.snd := by
  unfold cleanupPass
  rw [foldl_del_eq_filter]
  congr 1
  apply List.filter_congr
  intro x hx
  have hget : ps[x.1]? = some x.2 := List.mem_enum_iff_getElem?.mp hx
  have hlt : x.1 < ps.length := (List.getElem?_eq_some.mp hget).1
  have hc : (List.range ps.length).reverse.contains x.1 = true := by
    simp only [List.elem_iff, List.mem_reverse, List.mem_range]
    exact hlt
  rw [hc, Bool.true_and]

theorem tocStylePara_idem (p : TocPara) :
    tocStylePara (tocStylePara p) = tocStylePara p := by
  by_cases h : p.pStyleVal = some "TOCHeading" <;>
    simp [tocStylePara, h, List.map_map, Function.comp_def]

theorem tocStyleBlocks_idem (bs : List (List TocPara)) :
    tocStyleBlocks (tocStyleBlocks bs) = tocStyleBlocks bs := by
  unfold tocStyleBlocks
  rw [List.map_map]
  apply List.map_congr_left
  intro b _
  simp only [Function.comp_def]
  rw [List.map_map]
  apply List.map_congr_left
  intro q _
  exact tocStylePara_idem q

theorem iterate_succ_of_idem {α : Type} (f : α → α) (hf : ∀ a, f (f a) = f a) :
    ∀ (n : Nat) (a : α), f^[n + 1] a = f a := by
  intro n
  induction n with
  | zero => intro a; simp
  | succ n ih =>
    intro a
    rw [Function.iterate_succ_apply, ih (f a), hf]

theorem cleanupPass_ne_nil (ps : List Paragraph) (h : ps ≠ []) :
    cleanupPass ps ≠ [] := by
  rw [cleanupPass_eq_filter]
  cases ps with
  | nil => exact absurd rfl h
  | cons p t =>
    have h0 : delCond (p :: t) 0 = false := by
      simp [delCond, prevNonBlankPara]
    simp [List.enum_cons, List.filter_cons, h0]

/-! ### Helper lemmas: decorative-rule removal -/

theorem stripHrsGo_eq_filter (orig : List (List Char)) :
    ∀ (rest : List (List Char)) (i : Nat),
      stripHrsGo orig i rest =
        ((rest.enumFrom i).filter (fun x => !(is_hr x.2 && isAfterH1 orig x.1))).map Prod.snd := by
  intro rest
  induction rest with
  | nil => intro i; simp [stripHrsGo]
  | cons line rest ih =>
    intro i
    by_cases h : (is_hr line && isAfterH1 orig i) = true
    · simp [stripHrsGo, h, List.enumFrom, List.filter_cons, ih, -Bool.not_and]
    · simp [stripHrsGo, h, List.enumFrom, List.filter_cons, ih, -Bool.not_and]

theorem stripHrsLines_eq_filter (ls : List (List Char)) :
    stripHrsLines ls = (ls.enum.filter (fun x => keptLine ls x.1)).map Prod.snd := by
  unfold stripHrsLines
  rw [stripHrsGo_eq_filter]
  congr 1
  apply List.filter_congr
  intro x hx
  have hget : ls[x.1]? = some x.2 := by
    rw [← List.mem_enum_iff_getElem?]
    simpa [List.enum] using hx
  simp [keptLine, hget]

theorem is_hr_strip_ne (l : List Char) (h : is_hr l = true) : pyStrip l ≠ [] := by
  intro he
  rw [is_hr] at h
  simp only [he] at h
  simp at h

theorem is_header_1_strip_ne (l : List Char) (h : is_header_1 l = true) : pyStrip l ≠ [] := by
  intro he
  rw [is_header_1] at h
  simp only [he] at h
  simp at h

theorem is_hr_not_h1 (l : List Char) (h : is_hr l = true) : is_header_1 l = false := by
  rw [is_header_1]
  refine Bool.eq_false_iff.mpr (fun htrue => ?_)
  simp only [Bool.and_eq_true, beq_iff_eq] at htrue
  have hA : (pyStrip l).take 1 = ['#'] := htrue.1.1.1
  rw [is_hr] at h
  simp only [Bool.or_eq_true, beq_iff_eq, Bool.and_eq_true, decide_eq_true_eq] at h
  rcases h with ((h | h) | h) | ⟨hlen, hall⟩
  · rw [h] at hA; exact absurd hA (by decide)
  · rw [h] at hA; exact absurd hA (by decide)
  · rw [h] at hA; exact absurd hA (by decide)
  · have hmem : '#' ∈ pyStrip l :=
      List.take_subset 1 (pyStrip l) (by rw [hA]; exact List.mem_singleton_self '#')
    rcases hall with (hall | hall) | hall <;>
      · have h2 := List.all_eq_true.mp hall '#' hmem
        simp only [decide_eq_true_eq] at h2
        exact absurd h2 (by decide)

theorem prevNonBlankLine_skip (ls : List (List Char)) (i : Nat) (l : List Char)
    (hget : ls[i]? = some l) (hne : pyStrip l ≠ []) :
    prevNonBlankLine ls (i + 1) = some l := by
  simp [prevNonBlankLine, hget, hne]

/-! ### Claim theorems for the Markdown rule-removal pass -/

/-- C5: in the Markdown decorative-rule-removal pass a rule line (per
`is_hr`) is dropped exactly when the nearest non-blank line above it in the
original input is a level-1 heading (per `is_header_1`), every other line
passes through unchanged and in order (the pass equals an index filter by
`keptLine`); concretely `# Title\n---\n` loses the rule and
`## Title\n---\n` keeps it. -/
theorem c5_rule_removal :
    (∀ ls : List (List Char),
        stripHrsLines ls = (ls.enum.filter (fun x => keptLine ls x.1)).map Prod.snd)
    ∧ strip_hrs_after_headers "# Title\n---\n" = "# Title\n"
    ∧ strip_hrs_after_headers "## Title\n---\n" = "## Title\n---\n" :=
  ⟨stripHrsLines_eq_filter, by decide, by decide⟩

/-- C6: the backward lookup reads the original pre-removal line sequence:
after a level-1 heading followed by two consecutive rule lines, the first
rule line is dropped but the second is kept, because the second one's
nearest non-blank predecessor in the original input is the first rule line,
not the heading. -/
theorem c6_lookup_reads_original :
    ∀ (ls : List (List Char)) (i : Nat) (l0 l1 l2 : List Char),
      ls[i]? = some l0 → ls[i + 1]? = some l1 → ls[i + 2]? = some l2 →
      is_header_1 l0 = true → is_hr l1 = true → is_hr l2 = true →
      keptLine ls (i + 1) = false ∧ keptLine ls (i + 2) = true := by
  intro ls i l0 l1 l2 h0 h1 h2 hh1 hr1 hr2
  constructor
  · have hprev : prevNonBlankLine ls (i + 1) = some l0 :=
      prevNonBlankLine_skip ls i l0 h0 (is_header_1_strip_ne l0 hh1)
    simp [keptLine, h1, isAfterH1, hprev, hr1, hh1]
  · have hprev : prevNonBlankLine ls (i + 2) = some l1 :=
      prevNonBlankLine_skip ls (i + 1) l1 h1 (is_hr_strip_ne l1 hr1)
    simp [keptLine, h2, isAfterH1, hprev, is_hr_not_h1 l1 hr1]

/-- C9: caption stripping is idempotent on every input string; for every
image reference `![caption](path)` (caption without `]` or newline, path
without `)` or newline) it replaces the caption text with the empty string
and preserves the path; `![cap](x.png)` becomes `![](x.png)`. -/
theorem c9_strip_captions :
    (∀ s : String, strip_captions (strip_captions s) = strip_captions s)
    ∧ (∀ cap path : String,
        (∀ c ∈ cap.data, c ≠ ']' ∧ c ≠ '\n') →
        (∀ c ∈ path.data, c ≠ ')' ∧ c ≠ '\n') →
        strip_captions ("![" ++ cap ++ "](" ++ path ++ ")") = "![](" ++ path ++ ")")
    ∧ strip_captions "![cap](x.png)" = "![](x.png)" := by
  refine ⟨?_, ?_, by decide⟩
  · intro s
    exact congrArg String.mk (stripCapsAux_idem s.data)
  · intro cap path hcap hpath
    have h1 : ("![" ++ cap ++ "](" ++ path ++ ")").data
        = '!' :: '[' :: (cap.data ++ (']' :: '(' :: (path.data ++ [')']))) := by
      simp only [String.data_append]
      show ['!', '['] ++ cap.data ++ [']', '('] ++ path.data ++ [')'] = _
      simp [List.append_assoc]
    show String.mk (stripCapsAux ("![" ++ cap ++ "](" ++ path ++ ")").data)
        = "![](" ++ path ++ ")"
    rw [h1, stripCapsAux_image cap.data path.data hcap hpath]
    apply String.ext
    simp only [String.data_append]
    show _ = ['!', '[', ']', '('] ++ path.data ++ [')']
    simp [List.append_assoc]

/-- Witness for C9's image-reference clause at a concrete caption/path. -/
theorem c9_strip_captions_witness :
    strip_captions ("![" ++ "cap" ++ "](" ++ "x.png" ++ ")") = "![](" ++ "x.png" ++ ")" :=
  c9_strip_captions.2.1 "cap" "x.png" (by decide) (by decide)

/-- Witness for C6 at a concrete input. -/
theorem c6_lookup_reads_original_witness :
    keptLine ["# A".data, "---".data, "***".data] 1 = false
    ∧ keptLine ["# A".data, "---".data, "***".data] 2 = true :=
  c6_lookup_reads_original ["# A".data, "---".data, "***".data] 0
    "# A".data "---".data "***".data rfl rfl rfl (by decide) (by decide) (by decide)

/-- C7: the HTML-table transcoder returns the empty string when there is
no table element or no row contributes a header/data cell; otherwise it
emits row 0 as header, a `---` separator per column, then the remaining
rows in order, and every emitted row is padded to the same column count,
equal to the maximum number of cells over all input rows. -/
theorem c7_html_table :
    html_table_to_markdown none = ""
    ∧ (∀ trs, collectRows trs = [] → html_table_to_markdown (some trs) = "")
    ∧ (∀ trs, collectRows trs ≠ [] →
        (∀ r ∈ (collectRows trs).map (padRow (maxColumns (collectRows trs))),
            r.length = maxColumns (collectRows trs))
        ∧ html_table_to_markdown (some trs) =
            String.intercalate "\n"
              (renderRow (((collectRows trs).map
                  (padRow (maxColumns (collectRows trs)))).headD []) ::
               renderRow (List.replicate (maxColumns (collectRows trs)) "---") ::
               (((collectRows trs).map
                  (padRow (maxColumns (collectRows trs)))).drop 1).map renderRow)) := by
  refine ⟨rfl, ?_, ?_⟩
  · intro trs h
    simp [html_table_to_markdown, h]
  · intro trs h
    constructor
    · intro r hr
      obtain ⟨r0, hr0, rfl⟩ := List.mem_map.mp hr
      have hle := length_le_foldl_max (collectRows trs) 0 r0 hr0
      simp only [maxColumns] at hle ⊢
      simp only [padRow, List.length_append, List.length_replicate]
      omega
    · simp [html_table_to_markdown, List.isEmpty_iff, h]

/-- Witness for C7's nonempty clause on a concrete ragged table. -/
theorem c7_html_table_witness :
    (∀ r ∈ (collectRows exTrsC7).map (padRow (maxColumns (collectRows exTrsC7))),
        r.length = maxColumns (collectRows exTrsC7))
    ∧ html_table_to_markdown (some exTrsC7) =
        String.intercalate "\n"
          (renderRow (((collectRows exTrsC7).map
              (padRow (maxColumns (collectRows exTrsC7)))).headD []) ::
           renderRow (List.replicate (maxColumns (collectRows exTrsC7)) "---") ::
           (((collectRows exTrsC7).map
              (padRow (maxColumns (collectRows exTrsC7)))).drop 1).map renderRow) :=
  c7_html_table.2.2 exTrsC7 (by decide)

/-- C2: the cleanup pass deletes a paragraph exactly when it is a
decorative rule (border property, or stripped text `---`/`***`/`___`, or
longer than 5 characters and all underscores — `isHrPara`) whose nearest
preceding non-blank paragraph has style exactly `Heading 1`; every other
paragraph remains, unchanged and in order (the backwards-deleting loop
equals an index filter over the original sequence). -/
theorem c2_cleanup_pass :
    (∀ ps : List Paragraph,
        cleanupPass ps = (ps.enum.filter (fun x => !delCond ps x.1)).map Prod.snd)
    ∧ (∀ (ps : List Paragraph) (i : Nat) (p : Paragraph), ps[i]? = some p →
        (delCond ps i = true ↔
          (isHrPara p = true ∧
            ∃ q, prevNonBlankPara ps i = some q ∧ q.styleName = "Heading 1"))) := by
  refine ⟨cleanupPass_eq_filter, ?_⟩
  intro ps i p hp
  cases hprev : prevNonBlankPara ps i with
  | none => simp [delCond, hp, hprev]
  | some q => simp [delCond, hp, hprev]

/-- Witness for C2's characterization clause at a concrete rule paragraph
after a `Heading 1`. -/
theorem c2_cleanup_pass_witness :
    delCond [h1ParaEx, hrParaEx] 1 = true ↔
      (isHrPara hrParaEx = true ∧
        ∃ q, prevNonBlankPara [h1ParaEx, hrParaEx] 1 = some q ∧
          q.styleName = "Heading 1") :=
  c2_cleanup_pass.2 [h1ParaEx, hrParaEx] 1 hrParaEx rfl

/-- C3 (amended): the TOC-heading styling is executed once per paragraph
of the main styling loop, not once per document; because it is idempotent,
for every document with at least one paragraph the resulting state equals
a single application, but a paragraph-free document is left unstyled. -/
theorem c3_toc_styling_amended (cfg : Config) (doc : DocxDocument)
    (h : doc.paragraphs ≠ []) :
    (apply_styling cfg doc).tocBlocks = tocStyleBlocks doc.tocBlocks := by
  have hps0 : (if cfg.include_toc && !doc.paragraphs.isEmpty then
      coverPara :: doc.paragraphs else doc.paragraphs) ≠ [] := by
    split
    · simp
    · exact h
  have hne := cleanupPass_ne_nil _ hps0
  obtain ⟨n0, hn0⟩ := Nat.exists_eq_succ_of_ne_zero
    (fun h0 => hne (List.length_eq_zero.mp h0))
  show tocStyleBlocks^[(cleanupPass _).length] doc.tocBlocks = _
  rw [hn0]
  exact iterate_succ_of_idem tocStyleBlocks tocStyleBlocks_idem n0 doc.tocBlocks

/-- Counterexample to C3 as stated: on a document with no body paragraphs
but a `TOCHeading` block, the pass applies the TOC styling zero times (it
runs inside the per-paragraph loop), so the resulting state differs from a
single application. -/
theorem c3_toc_styling_counterexample :
    (apply_styling defaultConfig exDocC3).tocBlocks ≠ tocStyleBlocks exDocC3.tocBlocks := by
  decide

/-- Witness for C3's amended statement on a one-paragraph document. -/
theorem c3_toc_styling_witness :
    (apply_styling defaultConfig exDocC3w).tocBlocks = tocStyleBlocks exDocC3w.tocBlocks :=
  c3_toc_styling_amended defaultConfig exDocC3w (by decide)

/-! ### Helper lemmas: pass 2 -/

theorem pass2_getElem? (cfg : Config) (ps : List Paragraph) (i : Nat) :
    (pass2 cfg ps)[i]? = (ps[i]?).map (stylePara cfg ps i) := by
  unfold pass2
  rw [List.getElem?_map, List.getElem?_enum]
  cases ps[i]? <;> simp

theorem stylePara_caption_runs (cfg : Config) (ps : List Paragraph) (i : Nat) (p : Paragraph)
    (hfig : figMatch (pyStrip (paraText p)) = true)
    (hpv : prevHasImage ps i = true)
    (hcode : isCodeStyle p.styleName = false)
    (hhead : isHeadingStyle p.styleName = false)
    (hlist : isListStyled p = false) :
    (stylePara cfg ps i p).spaceBeforePt = some 9
    ∧ (stylePara cfg ps i p).spaceAfterPt = some 9
    ∧ (stylePara cfg ps i p).lineSpacing = some LineSpacingVal.single
    ∧ (stylePara cfg ps i p).runs
        = (p.runs.map (fun r =>
            { r with fontSizePt := some 10, fontName := some cfg.font_family })).map
          (fun r => { r with fontName := some cfg.font_family }) := by
  by_cases hIM : (!p.hasImage && !p.hasMath) = true <;>
    refine ⟨?_, ?_, ?_, ?_⟩ <;>
      simp [stylePara, hfig, hpv, hcode, hhead, hlist, hIM]

theorem stylePara_body_runs (cfg : Config) (ps : List Paragraph) (j : Nat) (p : Paragraph)
    (hpv : prevHasImage ps j = false)
    (hcode : isCodeStyle p.styleName = false)
    (hhead : isHeadingStyle p.styleName = false) :
    (stylePara cfg ps j p).runs
      = p.runs.map (fun r =>
          { r with fontSizePt := some cfg.font_size_body,
                   fontName := some cfg.font_family }) := by
  by_cases hIM : (!p.hasImage && !p.hasMath) = true <;>
    by_cases hl : isListStyled p = true <;>
      simp [stylePara, hpv, hcode, hhead, hIM, hl]

/-- C1 (amended): restricted to paragraphs that are not code-, heading- or
list-classified, the styling pass gives every caption (text matching
`Figure <digits>` case-insensitively with an image in the immediately
preceding paragraph) 10pt runs in the body font family and 9pt
before/after spacing with single line spacing, and the caption flag keeps
the generic body-font-size rule from overwriting the runs; when no image
precedes (or the paragraph is first), no caption styling is applied and
the runs receive the body font size.  (Unrestricted, the claim fails: the
later heading rule overwrites a `Heading 1` caption to 18pt.) -/
theorem c1_caption_styling_amended :
    (∀ (cfg : Config) (ps : List Paragraph) (i : Nat) (p q : Paragraph),
      ps[i]? = some q → ps[i + 1]? = some p →
      figMatch (pyStrip (paraText p)) = true →
      q.hasImage = true →
      isCodeStyle p.styleName = false →
      isHeadingStyle p.styleName = false →
      isListStyled p = false →
      ∀ p', (pass2 cfg ps)[i + 1]? = some p' →
        p'.spaceBeforePt = some 9 ∧ p'.spaceAfterPt = some 9 ∧
        p'.lineSpacing = some LineSpacingVal.single ∧
        ∀ r ∈ p'.runs, r.fontSizePt = some 10 ∧ r.fontName = some cfg.font_family)
    ∧ (∀ (cfg : Config) (ps : List Paragraph) (j : Nat) (p : Paragraph),
      ps[j]? = some p →
      prevHasImage ps j = false →
      isCodeStyle p.styleName = false →
      isHeadingStyle p.styleName = false →
      ∀ p', (pass2 cfg ps)[j]? = some p' →
        ∀ r ∈ p'.runs,
          r.fontSizePt = some cfg.font_size_body ∧
          r.fontName = some cfg.font_family) := by
  constructor
  · intro cfg ps i p q hq hp hfig himg hcode hhead hlist p' hp'
    rw [pass2_getElem? cfg ps (i + 1), hp] at hp'
    obtain rfl : stylePara cfg ps (i + 1) p = p' := by simpa using hp'
    have hpv : prevHasImage ps (i + 1) = true := by
      simp [prevHasImage, hq, himg]
    obtain ⟨h1, h2, h3, h4⟩ := stylePara_caption_runs cfg ps (i + 1) p hfig hpv hcode hhead hlist
    refine ⟨h1, h2, h3, ?_⟩
    intro r hr
    rw [h4] at hr
    obtain ⟨r1, hr1, rfl⟩ := List.mem_map.mp hr
    obtain ⟨r0, hr0, rfl⟩ := List.mem_map.mp hr1
    exact ⟨rfl, rfl⟩
  · intro cfg ps j p hp hpv hcode hhead p' hp'
    rw [pass2_getElem? cfg ps j, hp] at hp'
    obtain rfl : stylePara cfg ps j p = p' := by simpa using hp'
    intro r hr
    rw [stylePara_body_runs cfg ps j p hpv hcode hhead] at hr
    obtain ⟨r0, hr0, rfl⟩ := List.mem_map.mp hr
    exact ⟨rfl, rfl⟩

/-- Counterexample to C1 as stated: a `Heading 1`-styled paragraph whose
text matches the caption pattern, directly after an image paragraph, ends
the styling pass with 18pt runs (the heading size rule overwrites the 10pt
caption size), not 10pt as the claim requires. -/
theorem c1_caption_styling_counterexample :
    figMatch (pyStrip (paraText capHeadParaEx)) = true
    ∧ imgParaEx.hasImage = true
    ∧ ((pass2 defaultConfig [imgParaEx, capHeadParaEx])[1]?.map
        (fun p => p.runs.map (fun r => r.fontSizePt)))
      = some [some 18] := by decide

/-- Witness for C1's caption clause on a body-styled caption paragraph. -/
theorem c1_caption_styling_witness :
    (stylePara defaultConfig [imgParaEx, capBodyParaEx] 1 capBodyParaEx).spaceBeforePt = some 9
    ∧ (stylePara defaultConfig [imgParaEx, capBodyParaEx] 1 capBodyParaEx).spaceAfterPt = some 9
    ∧ (stylePara defaultConfig [imgParaEx, capBodyParaEx] 1 capBodyParaEx).lineSpacing
        = some LineSpacingVal.single
    ∧ ∀ r ∈ (stylePara defaultConfig [imgParaEx, capBodyParaEx] 1 capBodyParaEx).runs,
        r.fontSizePt = some 10 ∧ r.fontName = some defaultConfig.font_family :=
  c1_caption_styling_amended.1 defaultConfig [imgParaEx, capBodyParaEx] 0 capBodyParaEx imgParaEx
    rfl rfl (by decide) rfl (by decide) (by decide) (by decide)
    (stylePara defaultConfig [imgParaEx, capBodyParaEx] 1 capBodyParaEx) rfl

/-! ### Helper lemmas: table formatting -/

theorem formatTable_rows_getElem? (cfg : Config) (hg : Bool) (t : DocxTable) (i : Nat) :
    (formatTable cfg hg t).rows[i]?
      = (t.rows[i]?).map (fun row => row.map (formatCell cfg i)) := by
  show (t.rows.enum.map _)[i]? = _
  rw [List.getElem?_map, List.getElem?_enum]
  cases t.rows[i]? <;> simp

/-- C4 (amended): after the table-formatting step every table carries the
look flags `firstRow=1, firstColumn=1, lastRow=0, lastColumn=0` with
vertical banding suppressed (`noVBand=1`) while the horizontal-banding
flag is left enabled (`noHBand=0`); the table is centered; every header
cell (row 0) gets the accent background with bold white runs; runs in all
other rows are black; and every cell paragraph gets 0pt spacing
before/after.  (The claim's "without horizontal banding elsewhere" —
`noHBand=1` — is what fails.) -/
theorem c4_table_formatting_amended :
    (∀ (cfg : Config) (doc : DocxDocument),
        (apply_styling cfg doc).tables
          = doc.tables.map (formatTable cfg doc.hasTableGridStyle))
    ∧ (∀ (cfg : Config) (hg : Bool) (t : DocxTable),
        (formatTable cfg hg t).tblLook = some stdTblLook
        ∧ stdTblLook.firstRow = "1" ∧ stdTblLook.firstColumn = "1"
        ∧ stdTblLook.lastRow = "0" ∧ stdTblLook.lastColumn = "0"
        ∧ stdTblLook.noVBand = "1" ∧ stdTblLook.noHBand = "0"
        ∧ (formatTable cfg hg t).jc = some "center"
        ∧ (∀ row : List TableCell, (formatTable cfg hg t).rows[0]? = some row →
            ∀ cell ∈ row, cell.shd = some "4F81BD"
              ∧ ∀ p ∈ cell.paragraphs, ∀ r ∈ p.runs,
                  r.bold = some true ∧ r.colorRGB = some (0xFF, 0xFF, 0xFF))
        ∧ (∀ (i : Nat) (row : List TableCell),
            (formatTable cfg hg t).rows[i]? = some row → i ≠ 0 →
            ∀ cell ∈ row, ∀ p ∈ cell.paragraphs, ∀ r ∈ p.runs,
              r.colorRGB = some (0, 0, 0))
        ∧ (∀ (i : Nat) (row : List TableCell),
            (formatTable cfg hg t).rows[i]? = some row →
            ∀ cell ∈ row, ∀ p ∈ cell.paragraphs,
              p.spaceBeforePt = some 0 ∧ p.spaceAfterPt = some 0)) := by
  refine ⟨fun cfg doc => rfl, fun cfg hg t => ?_⟩
  refine ⟨rfl, rfl, rfl, rfl, rfl, rfl, rfl, rfl, ?_, ?_, ?_⟩
  · intro row hrow cell hcell
    rw [formatTable_rows_getElem?] at hrow
    cases hr0 : t.rows[0]? with
    | none => rw [hr0] at hrow; simp at hrow
    | some row0 =>
      rw [hr0] at hrow
      obtain rfl : row0.map (formatCell cfg 0) = row := by simpa using hrow
      obtain ⟨c0, hc0, rfl⟩ := List.mem_map.mp hcell
      refine ⟨rfl, ?_⟩
      intro p hp r hr
      simp only [formatCell] at hp
      obtain ⟨p0, hp0, rfl⟩ := List.mem_map.mp hp
      obtain ⟨r0, hr0', rfl⟩ := List.mem_map.mp hr
      exact ⟨rfl, rfl⟩
  · intro i row hrow hi cell hcell p hp r hr
    rw [formatTable_rows_getElem?] at hrow
    cases hri : t.rows[i]? with
    | none => rw [hri] at hrow; simp at hrow
    | some rowi =>
      rw [hri] at hrow
      obtain rfl : rowi.map (formatCell cfg i) = row := by simpa using hrow
      obtain ⟨c0, hc0, rfl⟩ := List.mem_map.mp hcell
      simp only [formatCell] at hp
      obtain ⟨p0, hp0, rfl⟩ := List.mem_map.mp hp
      obtain ⟨r0, hr0', rfl⟩ := List.mem_map.mp hr
      simp [hi]
  · intro i row hrow cell hcell p hp
    rw [formatTable_rows_getElem?] at hrow
    cases hri : t.rows[i]? with
    | none => rw [hri] at hrow; simp at hrow
    | some rowi =>
      rw [hri] at hrow
      obtain rfl : rowi.map (formatCell cfg i) = row := by simpa using hrow
      obtain ⟨c0, hc0, rfl⟩ := List.mem_map.mp hcell
      simp only [formatCell] at hp
      obtain ⟨p0, hp0, rfl⟩ := List.mem_map.mp hp
      exact ⟨rfl, rfl⟩

/-- Counterexample to C4 as stated: the look flags the code writes have
`noHBand = "0"` (horizontal banding not suppressed) and `noVBand = "1"`,
so the claimed "first row/first column distinct without horizontal banding
elsewhere" flag reading is false on any formatted table. -/
theorem c4_table_formatting_counterexample :
    (formatTable defaultConfig true exTableC4).tblLook = some stdTblLook
    ∧ ¬ claimLookFlagsC4 stdTblLook := by
  constructor
  · rfl
  · intro h
    exact absurd h.2.2 (by decide)

/-- Witness for C4's header-row and spacing clauses on a concrete table. -/
theorem c4_table_formatting_witness :
    exFmtCellC4.shd = some "4F81BD"
    ∧ exFmtRun0C4.bold = some true
    ∧ exFmtRun0C4.colorRGB = some (0xFF, 0xFF, 0xFF)
    ∧ exFmtParaC4.spaceBeforePt = some 0
    ∧ exFmtParaC4.spaceAfterPt = some 0 := by
  have h := (c4_table_formatting_amended.2 defaultConfig true exTable1C4).2.2.2.2.2.2.2.2.1
    [exFmtCellC4] rfl exFmtCellC4 (List.mem_singleton_self _)
  have hs := (c4_table_formatting_amended.2 defaultConfig true exTable1C4).2.2.2.2.2.2.2.2.2.2
    0 [exFmtCellC4] rfl exFmtCellC4 (List.mem_singleton_self _) exFmtParaC4 (by decide)
  have hr := h.2 exFmtParaC4 (by decide) exFmtRun0C4 (by decide)
  exact ⟨h.1, hr.1, hr.2, hs.1, hs.2⟩

/-- C8: the conversion raises `ConversionError` before any compiler
invocation when the input file is missing, its suffix is unsupported, or
the compiler binary is absent from the PATH; it raises `ConversionError`
carrying the compiler's exit code and stderr exactly when an invocation
exits non-zero; and failures of the cosmetic header/footer and styling
steps never abort — for arbitrary cosmetic outcomes the docx result is
still returned. -/
theorem c8_error_handling :
    (∀ env : ExecEnv, env.inputExists = false →
        convertModel env = ({}, some CErr.inputNotFound))
    ∧ (∀ env : ExecEnv, env.inputExists = true → env.suffix ∉ [".ipynb", ".md"] →
        convertModel env = ({}, some (CErr.unsupportedType env.suffix)))
    ∧ (∀ env : ExecEnv, env.inputExists = true → env.suffix ∈ [".ipynb", ".md"] →
        env.pandocOnPath = false → (env.suffix = ".ipynb" → env.nbAvailable = true) →
        (convertModel env).2 = some CErr.pandocMissing
          ∧ (convertModel env).1.compiled = [])
    ∧ (∀ env : ExecEnv, env.inputExists = true → env.suffix = ".md" →
        env.pandocOnPath = true →
        (env.pandocRc 0 ≠ 0 →
          convertModel env
            = ({ compiled := [env.rawMarkdown] },
               some (CErr.pandocFailed (env.pandocRc 0) (env.pandocStderr 0))))
        ∧ (env.pandocRc 0 = 0 → env.pandocRc 1 ≠ 0 →
          (convertModel env).2
            = some (CErr.pandocFailed (env.pandocRc 1) (env.pandocStderr 1)))
        ∧ (env.pandocRc 0 = 0 → env.pandocRc 1 = 0 →
          (convertModel env).2 = none
          ∧ (convertModel env).1.docx = some (normalizeMd env.rawMarkdown)))
    ∧ (∀ env : ExecEnv, env.inputExists = true → env.suffix = ".ipynb" →
        env.nbAvailable = true → env.pandocOnPath = true →
        (env.pandocRc 0 ≠ 0 →
          (convertModel env).2
            = some (CErr.pandocFailed (env.pandocRc 0) (env.pandocStderr 0)))
        ∧ (env.pandocRc 0 = 0 →
          (convertModel env).2 = none
          ∧ (convertModel env).1.docx = some (normalizeMd env.nbExportMarkdown))) := by
  refine ⟨?_, ?_, ?_, ?_, ?_⟩
  · intro env h
    simp [convertModel, h]
  · intro env h1 h2
    simp [convertModel, h1, h2]
  · intro env h1 h2 h3 h4
    rcases List.mem_cons.mp h2 with hs | hs
    · have hnb := h4 hs
      simp [convertModel, mdToDocx, h1, h3, hs, hnb]
    · have hs' : env.suffix = ".md" := by simpa using hs
      simp [convertModel, mdToDocx, h1, h3, hs']
  · intro env h1 h2 h3
    refine ⟨?_, ?_, ?_⟩
    · intro hrc
      simp [convertModel, mdToDocx, h1, h2, h3, hrc]
    · intro hrc0 hrc1
      simp [convertModel, mdToDocx, h1, h2, h3, hrc0, hrc1]
    · intro hrc0 hrc1
      simp [convertModel, mdToDocx, h1, h2, h3, hrc0, hrc1]
  · intro env h1 h2 h3 h4
    refine ⟨?_, ?_⟩
    · intro hrc
      simp [convertModel, mdToDocx, h1, h2, h3, h4, hrc]
    · intro hrc
      simp [convertModel, mdToDocx, h1, h2, h3, h4, hrc]

/-- Witness for C8: with pandoc missing the conversion fails before any
invocation; in a healthy environment with a failing styling step the docx
is still produced. -/
theorem c8_error_handling_witness :
    ((convertModel exEnvNoPandoc).2 = some CErr.pandocMissing
      ∧ (convertModel exEnvNoPandoc).1.compiled = [])
    ∧ ((convertModel exEnvMd).2 = none
      ∧ (convertModel exEnvMd).1.docx = some (normalizeMd exEnvMd.rawMarkdown)) :=
  ⟨c8_error_handling.2.2.1 exEnvNoPandoc rfl (by decide) rfl
      (fun h => absurd h (by decide)),
   (c8_error_handling.2.2.2.1 exEnvMd rfl rfl rfl).2.2 rfl rfl⟩

/-- C10: for a Markdown input the conversion invokes the external compiler
twice on the same output path — first on the raw source, then on the
normalized text — so the final artifact is the compilation of the
normalized text (the raw compilation's output is overwritten), and a
compiler failure on the raw source aborts the whole conversion even though
the second compilation is never constrained. -/
theorem c10_double_compile :
    ∀ env : ExecEnv, env.inputExists = true → env.suffix = ".md" →
      env.pandocOnPath = true →
      (env.pandocRc 0 = 0 → env.pandocRc 1 = 0 →
        (convertModel env).1.compiled = [env.rawMarkdown, normalizeMd env.rawMarkdown]
        ∧ (mdToDocx env env.rawMarkdown {}).1.docx = some env.rawMarkdown
        ∧ (convertModel env).1.docx = some (normalizeMd env.rawMarkdown)
        ∧ (convertModel env).2 = none)
      ∧ (env.pandocRc 0 ≠ 0 →
        (convertModel env).2 = some (CErr.pandocFailed (env.pandocRc 0) (env.pandocStderr 0))
        ∧ (convertModel env).1.compiled = [env.rawMarkdown]) := by
  intro env h1 h2 h3
  refine ⟨?_, ?_⟩
  · intro hrc0 hrc1
    refine ⟨?_, ?_, ?_, ?_⟩ <;>
      simp [convertModel, mdToDocx, h1, h2, h3, hrc0, hrc1]
  · intro hrc0
    refine ⟨?_, ?_⟩ <;>
      simp [convertModel, mdToDocx, h1, h2, h3, hrc0]

/-- Witness for C10: the healthy environment compiles raw then normalized
text; the environment failing on the raw source aborts with that failure
even though its second invocation would succeed. -/
theorem c10_double_compile_witness :
    ((convertModel exEnvMd).1.compiled
        = [exEnvMd.rawMarkdown, normalizeMd exEnvMd.rawMarkdown]
      ∧ (convertModel exEnvMd).2 = none)
    ∧ ((convertModel exEnvFail0).2 = some (CErr.pandocFailed 2 "boom")
      ∧ (convertModel exEnvFail0).1.compiled = [exEnvFail0.rawMarkdown]) := by
  have h1 := (c10_double_compile exEnvMd rfl rfl rfl).1 rfl rfl
  have h2 := (c10_double_compile exEnvFail0 rfl rfl rfl).2 (by decide)
  exact ⟨⟨h1.1, h1.2.2.2⟩, ⟨h2.1, h2.2⟩⟩

end Doco
